import Mathlib

/-!
# Verification of the ToDo-List application core

A shallow embedding of the task data model and the state-transition
functions of the `App` component (`src/unnamed/part_001`): adding,
toggling, editing, deleting, filtering, drag-reordering, and the
localStorage persistence round trip.  Pure Lean functions mirror the
handlers; the implicit React state (`todos`, `editingId`, …) is passed
explicitly, and the clock (`Date.now()` / `new Date()`) is an explicit
millisecond parameter.
-/

/--
A date-valued field at runtime holds either a real JS `Date` object or —
after a JSON round trip without reconstitution — its serialized ISO
string.  `Date.prototype.toJSON` produces an ISO string that determines
the epoch-millisecond value exactly, and `new Date(isoString)` recovers
that value, so both representations are modelled by the millisecond
value they denote, tagged by which representation is present.
-/
inductive DateRep where
  | dateObj (ms : Int)
  | isoStr (ms : Int)
deriving DecidableEq, Repr

/-- The epoch-millisecond value a date representation denotes. -/
def DateRep.ms : DateRep → Int
  | .dateObj m => m
  | .isoStr m => m

/-- Whether the runtime value is an actual `Date` object (as opposed to a
string left over from deserialization). -/
def DateRep.isDateObj : DateRep → Bool
  | .dateObj _ => true
  | .isoStr _ => false

/-- `new Date(x)` for `x` a `Date` object (copies it) or an ISO string
(parses it back to the same epoch value). -/
def newDate (r : DateRep) : DateRep := DateRep.dateObj r.ms

/-- The `Todo` record of `src/unnamed/part_001` (lines 17-24):
`id`, `text`, `completed`, `createdAt`, optional `completedAt`,
optional `deadline`.  An absent optional field is `none`; the code never
stores `null` in them (`toggleTodo` deletes `completedAt` outright). -/
structure Todo where
  id : String
  text : String
  completed : Bool
  createdAt : DateRep
  completedAt : Option DateRep := none
  deadline : Option DateRep := none
deriving DecidableEq, Repr

/-- The filter state of the component: `'all' | 'active' | 'completed'`. -/
inductive FilterMode where
  | all
  | active
  | completed
deriving DecidableEq, Repr

/-- The predicate inside `filteredTodos` (lines 246-251): the cascade of
`if` tests on the filter mode, with a final `return true` fallback. -/
def filterKeep (filter : FilterMode) (todo : Todo) : Bool :=
  if filter = FilterMode.all then true
  else if filter = FilterMode.active then !todo.completed
  else if filter = FilterMode.completed then todo.completed
  else true

/-- `filteredTodos = todos.filter(...)` (lines 246-251). -/
def filteredTodos (todos : List Todo) (filter : FilterMode) : List Todo :=
  todos.filter (filterKeep filter)

/--
Model of platform date parsing for a user-typed `<input type="date">`
value (`new Date(newDeadline)` in `addTodo`).  The parsed epoch value is
platform behaviour outside the repository and no claim below depends on
it — only on whether a deadline is present — so it is modelled as a
fixed function of the string.
-/
def parseDateInput (_s : String) : Int := 0

/-- A character JS `String.prototype.trim` strips (the ASCII whitespace
and line-terminator code points; the exotic Unicode whitespace the spec
never exercises is omitted). -/
def jsWhitespace (c : Char) : Bool :=
  c = ' ' || c = '\t' || c = '\n' || c = '\r' || c = '\x0b' || c = '\x0c'

/-- JS `String.prototype.trim`: strip leading and trailing whitespace. -/
def jsTrim (s : String) : String :=
  String.mk (((s.data.dropWhile jsWhitespace).reverse.dropWhile jsWhitespace).reverse)

/-- `addTodo` (lines 183-200): rejects text that trims to empty,
otherwise appends a task with `id = Date.now().toString()`, the raw
(untrimmed) text, `completed: false`, `createdAt = new Date()`, no
`completedAt` field, and a deadline only when the deadline input string
is nonempty (JS truthiness on a string).  The two clock reads
(`Date.now()` and `new Date()`) are modelled as a single instant. -/
def addTodo (todos : List Todo) (newTodo : String) (newDeadline : String)
    (nowMs : Int) : List Todo :=
  if jsTrim newTodo = "" then todos
  else
    todos ++
      [{ id := toString nowMs
         text := newTodo
         completed := false
         createdAt := DateRep.dateObj nowMs
         deadline :=
           if newDeadline ≠ "" then some (DateRep.dateObj (parseDateInput newDeadline))
           else none }]

/-- `toggleTodo` (lines 202-216): on the matching id, a not-completed
task becomes completed with `completedAt: new Date()`; a completed task
has `completedAt` destructured away (absent) and `completed: false`. -/
def toggleTodo (todos : List Todo) (id : String) (nowMs : Int) : List Todo :=
  todos.map fun todo =>
    if todo.id == id then
      if !todo.completed then
        { todo with completed := true, completedAt := some (DateRep.dateObj nowMs) }
      else
        { todo with completed := false, completedAt := none }
    else todo

/-- `deleteTodo` (lines 218-220): `todos.filter(todo => todo.id !== id)`. -/
def deleteTodo (todos : List Todo) (id : String) : List Todo :=
  todos.filter fun todo => !(todo.id == id)

/-- `submitEdit` (lines 229-237): when an edit session is active
(`editingId !== null`), replace the text of the task with that id by the
in-progress `editingText`, unconditionally; with no active session the
store is untouched. -/
def submitEdit (todos : List Todo) (editingId : Option String)
    (editingText : String) : List Todo :=
  match editingId with
  | none => todos
  | some eid =>
      todos.map fun todo =>
        if todo.id == eid then { todo with text := editingText } else todo

/-- `JSON.stringify` of one task (save path, lines 133-135): each
date-valued field serializes to its ISO string (`Date.prototype.toJSON`);
an absent optional field stays absent. -/
def saveTodo (t : Todo) : Todo :=
  { t with
    createdAt := DateRep.isoStr t.createdAt.ms
    completedAt := t.completedAt.map (fun d => DateRep.isoStr d.ms)
    deadline := t.deadline.map (fun d => DateRep.isoStr d.ms) }

/-- The persisted form of the whole collection
(`localStorage.setItem('todos', JSON.stringify(todos))`, lines 133-135),
given as the parsed JSON value it round-trips to. -/
def save (todos : List Todo) : List Todo := todos.map saveTodo

/-- The per-task map of the `useState` initializer (lines 67-72):
`String(todo.id)` (identity on a string id), `new Date(todo.createdAt)`,
`completedAt` rebuilt through `new Date` only when present (truthy).
The `deadline` field is only carried along by the spread — it is *not*
converted. -/
def loadTodoInit (t : Todo) : Todo :=
  { t with
    id := t.id
    createdAt := newDate t.createdAt
    completedAt := t.completedAt.map newDate }

/-- The `useState` initializer (lines 62-78).  The stored slot is
`none` when `localStorage.getItem('todos')` is null; otherwise
`JSON.parse` either throws (modelled `Except.error`, caught: return
`[]`) or yields the parsed array. -/
def loadInit : Option (Except String (List Todo)) → List Todo
  | none => []
  | some (Except.error _) => []
  | some (Except.ok parsed) => parsed.map loadTodoInit

/-- The per-task map of the on-mount `useEffect` load (lines 121-125):
like the initializer but without the `String(todo.id)` conversion, and
again without touching `deadline`. -/
def loadTodoEffect (t : Todo) : Todo :=
  { t with
    createdAt := newDate t.createdAt
    completedAt := t.completedAt.map newDate }

/-- The on-mount `useEffect` load (lines 115-130): with no stored value
or a throwing parse it leaves the current state alone (the catch block
is empty); otherwise it replaces the state with the converted array. -/
def loadEffect (stored : Option (Except String (List Todo)))
    (current : List Todo) : List Todo :=
  match stored with
  | none => current
  | some (Except.error _) => current
  | some (Except.ok parsed) => parsed.map loadTodoEffect

/-- The full startup load: the `useState` initializer runs first, then
the on-mount effect reads the same slot again. -/
def mountLoad (stored : Option (Except String (List Todo))) : List Todo :=
  loadEffect stored (loadInit stored)

/-- `Array.prototype.findIndex` helper: index of the first element
satisfying `p`, if any. -/
def jsFindIndexAux {α : Type} (p : α → Bool) : List α → Option Nat
  | [] => none
  | a :: l => if p a then some 0 else (jsFindIndexAux p l).map (· + 1)

/-- `Array.prototype.findIndex`: first matching index, `-1` if none. -/
def jsFindIndex {α : Type} (p : α → Bool) (l : List α) : Int :=
  match jsFindIndexAux p l with
  | some n => (n : Int)
  | none => -1

/-- JS `Array.prototype.splice` start-index normalization: a negative
start counts from the end, and the result is clamped to `[0, len]`. -/
def spliceStart (len : Nat) (start : Int) : Nat :=
  if start < 0 then (start + len).toNat else min start.toNat len

/-- `arrayMove` from `@dnd-kit/sortable`, as called by `handleDragEnd`:
copy the array, compute the insertion index from `to` against the
*original* length (negative `to` counts from the end), splice out the
element at `from`, and splice it back in at that index (normalized
against the shortened array).  When the `from` splice removes no element
(start normalized to the array length) the JS code would splice in
`undefined`; that branch is unreachable from `handleDragEnd`, whose
`from` is a `findIndex` result over the same array, and is modelled as
leaving the list unchanged. -/
def arrayMove (l : List Todo) (f t : Int) : List Todo :=
  let ins : Int := if t < 0 then t + l.length else t
  let fi := spliceStart l.length f
  if h : fi < l.length then
    (l.eraseIdx fi).insertIdx (spliceStart (l.eraseIdx fi).length ins) (l.get ⟨fi, h⟩)
  else l

/-- The drop event handed to `handleDragEnd`: the dragged item's id and
the id of the item it was dropped over (`over` may be null). -/
structure DragEvent where
  activeId : String
  overId : Option String
deriving DecidableEq, Repr

/-- `handleDragEnd` (lines 174-181): when `active.id !== over?.id`
(also true when `over` is null), look up both ids in the *full* `todos`
array with `findIndex` (`t.id === over?.id` is false everywhere when
`over` is null, giving `-1`) and apply `arrayMove`. -/
def handleDragEnd (todos : List Todo) (ev : DragEvent) : List Todo :=
  if some ev.activeId ≠ ev.overId then
    arrayMove todos
      (jsFindIndex (fun t => t.id == ev.activeId) todos)
      (match ev.overId with
       | some oid => jsFindIndex (fun t => t.id == oid) todos
       | none => -1)
  else todos

/-- The store invariant of the spec: `completedAt` is present iff
`completed` is true. -/
abbrev completionInv (todos : List Todo) : Prop :=
  ∀ t ∈ todos, t.completedAt.isSome = t.completed

/-- The store invariant of the spec: exactly one task per id. -/
abbrev uniqueIds (todos : List Todo) : Prop :=
  (todos.map Todo.id).Nodup

/-! ## Helper lemmas -/

theorem jsFindIndexAux_some_of_mem {α : Type} {p : α → Bool} {x : α} :
    ∀ {l : List α}, x ∈ l → p x = true → ∃ n, jsFindIndexAux p l = some n := by
  intro l hx hp
  induction l with
  | nil => cases hx
  | cons a l ih =>
    by_cases ha : p a = true
    · exact ⟨0, by simp [jsFindIndexAux, ha]⟩
    · rcases List.mem_cons.mp hx with rfl | hx'
      · exact absurd hp ha
      · rcases ih hx' with ⟨n, hn⟩
        exact ⟨n + 1, by simp [jsFindIndexAux, ha, hn]⟩

theorem jsFindIndexAux_spec {α : Type} {p : α → Bool} :
    ∀ (l : List α) (n : Nat), jsFindIndexAux p l = some n →
      ∃ h : n < l.length, p (l.get ⟨n, h⟩) = true
  | [], n, h => by simp [jsFindIndexAux] at h
  | a :: l, n, h => by
    by_cases ha : p a = true
    · rw [jsFindIndexAux, if_pos ha] at h
      injection h with h
      subst h
      exact ⟨Nat.succ_pos _, ha⟩
    · rw [jsFindIndexAux, if_neg ha] at h
      rcases Option.map_eq_some'.mp h with ⟨m, hm, hmn⟩
      subst hmn
      rcases jsFindIndexAux_spec l m hm with ⟨hlt, hget⟩
      exact ⟨Nat.succ_lt_succ hlt, hget⟩

theorem filter_insertIdx_of_neg {α : Type} {q : α → Bool} {x : α} (hx : q x = false) :
    ∀ (n : Nat) (l : List α), (l.insertIdx n x).filter q = l.filter q
  | 0, l => by simp [List.insertIdx_zero, List.filter_cons, hx]
  | n + 1, [] => by simp
  | n + 1, a :: l => by
    simp [List.insertIdx_succ_cons, List.filter_cons,
      filter_insertIdx_of_neg hx n l]

theorem filter_eraseIdx_of_neg {α : Type} {q : α → Bool} :
    ∀ (l : List α) (i : Nat) (h : i < l.length), q (l.get ⟨i, h⟩) = false →
      (l.eraseIdx i).filter q = l.filter q
  | a :: l, 0, _, hx => by
    simp [List.eraseIdx, List.filter_cons, show q a = false from hx]
  | a :: l, i + 1, h, hx => by
    simp only [List.eraseIdx, List.filter_cons]
    rw [filter_eraseIdx_of_neg l i (Nat.lt_of_succ_lt_succ h) hx]

theorem insertIdx_perm_cons {α : Type} (x : α) :
    ∀ (n : Nat) (l : List α), n ≤ l.length → (l.insertIdx n x).Perm (x :: l)
  | 0, l, _ => by rw [List.insertIdx_zero]
  | n + 1, [], h => absurd h (by simp)
  | n + 1, a :: l, h => by
    rw [List.insertIdx_succ_cons]
    exact ((insertIdx_perm_cons x n l (Nat.le_of_succ_le_succ h)).cons a).trans
      (List.Perm.swap x a l)

theorem get_cons_eraseIdx_perm {α : Type} :
    ∀ (l : List α) (i : Nat) (h : i < l.length),
      (l.get ⟨i, h⟩ :: l.eraseIdx i).Perm l
  | _ :: _, 0, _ => List.Perm.refl _
  | a :: l, i + 1, h => by
    show (l.get ⟨i, Nat.lt_of_succ_lt_succ h⟩ :: a :: l.eraseIdx i).Perm (a :: l)
    exact (List.Perm.swap a (l.get ⟨i, Nat.lt_of_succ_lt_succ h⟩) (l.eraseIdx i)).trans
      ((get_cons_eraseIdx_perm l i (Nat.lt_of_succ_lt_succ h)).cons a)

theorem spliceStart_le (len : Nat) (start : Int) : spliceStart len start ≤ len := by
  unfold spliceStart
  split <;> omega

/-- `arrayMove` with its two `let`s expanded. -/
theorem arrayMove_eq (l : List Todo) (f t : Int) :
    arrayMove l f t =
      if h : spliceStart l.length f < l.length then
        (l.eraseIdx (spliceStart l.length f)).insertIdx
          (spliceStart (l.eraseIdx (spliceStart l.length f)).length
            (if t < 0 then t + l.length else t))
          (l.get ⟨spliceStart l.length f, h⟩)
      else l := rfl

theorem arrayMove_perm (l : List Todo) (f t : Int) : (arrayMove l f t).Perm l := by
  rw [arrayMove_eq]
  by_cases h : spliceStart l.length f < l.length
  · rw [dif_pos h]
    exact (insertIdx_perm_cons _ _ _ (spliceStart_le _ _)).trans
      (get_cons_eraseIdx_perm l _ h)
  · rw [dif_neg h]

theorem handleDragEnd_perm (todos : List Todo) (ev : DragEvent) :
    (handleDragEnd todos ev).Perm todos := by
  unfold handleDragEnd
  split
  · exact arrayMove_perm _ _ _
  · exact List.Perm.refl _

theorem map_field_of_preserve {α β : Type} (g : α → α) (f : α → β)
    (hg : ∀ x, f (g x) = f x) (l : List α) : (l.map g).map f = l.map f := by
  rw [List.map_map]
  exact List.map_congr_left fun a _ => hg a

/-- `arrayMove` at in-range nonnegative indexes: remove at `i`, insert at `j`. -/
theorem arrayMove_nat (l : List Todo) (i j : Nat) (hi : i < l.length)
    (hj : j < l.length) :
    arrayMove l (i : Int) (j : Int) =
      (l.eraseIdx i).insertIdx j (l.get ⟨i, hi⟩) := by
  have hfi : spliceStart l.length (i : Int) = i := by
    unfold spliceStart
    rw [if_neg (by omega)]
    simp only [Int.toNat_ofNat]
    exact Nat.min_eq_left (Nat.le_of_lt hi)
  have hins : spliceStart (l.eraseIdx i).length (j : Int) = j := by
    rw [List.length_eraseIdx_of_lt hi]
    unfold spliceStart
    rw [if_neg (by omega)]
    simp only [Int.toNat_ofNat]
    exact Nat.min_eq_left (by omega)
  rw [arrayMove_eq, hfi, dif_pos hi, if_neg (show ¬ ((j : Int) < 0) by omega), hins]

/-! ## Concrete tasks used by witnesses and counterexamples -/

/-- A sample active task. -/
def taskA : Todo := { id := "a", text := "A", completed := false, createdAt := DateRep.dateObj 0 }

/-- A second sample active task. -/
def taskB : Todo := { id := "b", text := "B", completed := false, createdAt := DateRep.dateObj 1 }

/-- A sample completed task (hidden under the `active` filter). -/
def taskH : Todo :=
  { id := "h", text := "H", completed := true, createdAt := DateRep.dateObj 2
    completedAt := some (DateRep.dateObj 9) }

/-- A sample task carrying a deadline. -/
def taskD : Todo :=
  { id := "d", text := "D", completed := false, createdAt := DateRep.dateObj 3
    deadline := some (DateRep.dateObj 5) }

/-! ## Claims -/

/-- C1: for every task collection with unique ids, every filter mode, and
every drop of one visible task onto another visible task, the
subsequence of tasks outside the filtered view is unchanged in the
resulting full collection. -/
theorem c1_filtered_reorder_preserves_hidden (todos : List Todo) (m : FilterMode)
    (a b : String) (hnd : uniqueIds todos)
    (ha : ∃ t ∈ filteredTodos todos m, t.id = a)
    (hb : ∃ t ∈ filteredTodos todos m, t.id = b) :
    (handleDragEnd todos ⟨a, some b⟩).filter (fun t => !(filterKeep m t)) =
      todos.filter (fun t => !(filterKeep m t)) := by
  rcases ha with ⟨u, hu, hua⟩
  rcases hb with ⟨v, hv, hvb⟩
  have hu' := List.mem_filter.mp hu
  have hv' := List.mem_filter.mp hv
  by_cases hab : a = b
  · subst hab
    simp [handleDragEnd]
  · rcases jsFindIndexAux_some_of_mem (p := fun t => t.id == a) hu'.1 (by simp [hua])
      with ⟨i, hi⟩
    rcases jsFindIndexAux_some_of_mem (p := fun t => t.id == b) hv'.1 (by simp [hvb])
      with ⟨j, hj⟩
    rcases jsFindIndexAux_spec todos i hi with ⟨hilt, hgi⟩
    rcases jsFindIndexAux_spec todos j hj with ⟨hjlt, hgj⟩
    have hxu : todos.get ⟨i, hilt⟩ = u := by
      apply List.inj_on_of_nodup_map hnd (todos.get_mem i hilt) hu'.1
      rw [hua]
      exact eq_of_beq hgi
    have hkeep : filterKeep m (todos.get ⟨i, hilt⟩) = true := hxu ▸ hu'.2
    have hstep : handleDragEnd todos ⟨a, some b⟩ = arrayMove todos (i : Int) (j : Int) := by
      unfold handleDragEnd
      rw [if_pos (by simpa using hab)]
      simp only [jsFindIndex, hi, hj]
    rw [hstep, arrayMove_nat todos i j hilt hjlt,
      filter_insertIdx_of_neg (by rw [hkeep]; rfl),
      filter_eraseIdx_of_neg todos i hilt (by rw [hkeep]; rfl)]

/-- Witness for C1 at a concrete collection: `[A, H, B]` with `H`
completed, filter `active`, dragging `B` onto `A`. -/
theorem c1_witness :
    uniqueIds [taskA, taskH, taskB] ∧
    (∃ t ∈ filteredTodos [taskA, taskH, taskB] FilterMode.active, t.id = "b") ∧
    (∃ t ∈ filteredTodos [taskA, taskH, taskB] FilterMode.active, t.id = "a") ∧
    (handleDragEnd [taskA, taskH, taskB] ⟨"b", some "a"⟩).filter
        (fun t => !(filterKeep FilterMode.active t)) =
      [taskA, taskH, taskB].filter (fun t => !(filterKeep FilterMode.active t)) :=
  ⟨by decide, by decide, by decide,
    c1_filtered_reorder_preserves_hidden [taskA, taskH, taskB] FilterMode.active
      "b" "a" (by decide) (by decide) (by decide)⟩

/-- C2 counterexample: dropping task `a` over no resolved target
(`over` null) is *not* a no-op — the guard `active.id !== over?.id`
passes, `newIndex` is `-1`, and `arrayMove` moves the dragged task to
the end: `[A, B]` becomes `[B, A]`. -/
theorem c2_counterexample :
    handleDragEnd [taskA, taskB] ⟨"a", none⟩ ≠ [taskA, taskB] := by decide

/-- C2 amended: a drag-drop is a no-op when the source and destination
ids coincide; when the destination is unresolved (`over` null), the
dragged task is instead removed from its position and appended at the
end of the collection. -/
theorem c2_amended_noop_or_move_to_end (todos : List Todo) (a : String) (i : Nat)
    (hi : jsFindIndexAux (fun t => t.id == a) todos = some i) :
    handleDragEnd todos ⟨a, some a⟩ = todos ∧
    ∃ h : i < todos.length,
      handleDragEnd todos ⟨a, none⟩ = todos.eraseIdx i ++ [todos.get ⟨i, h⟩] := by
  rcases jsFindIndexAux_spec todos i hi with ⟨hilt, _⟩
  constructor
  · unfold handleDragEnd
    rw [if_neg (by simp)]
  · refine ⟨hilt, ?_⟩
    have hstep : handleDragEnd todos ⟨a, none⟩ = arrayMove todos (i : Int) (-1) := by
      unfold handleDragEnd
      rw [if_pos (by simp)]
      simp only [jsFindIndex, hi]
    have hfi : spliceStart todos.length (i : Int) = i := by
      unfold spliceStart
      rw [if_neg (by omega)]
      simp only [Int.toNat_ofNat]
      exact Nat.min_eq_left (Nat.le_of_lt hilt)
    have hins : spliceStart (todos.eraseIdx i).length (-1 + (todos.length : Int)) =
        (todos.eraseIdx i).length := by
      rw [List.length_eraseIdx_of_lt hilt]
      unfold spliceStart
      rw [if_neg (by omega)]
      have : ((-1 : Int) + todos.length).toNat = todos.length - 1 := by omega
      rw [this]
      exact Nat.min_self _
    rw [hstep, arrayMove_eq, hfi, dif_pos hilt,
      if_pos (show (-1 : Int) < 0 by omega), hins, List.insertIdx_length_self]

/-- Witness for the amended C2 on `[A, B]`, dragging `a`. -/
theorem c2_amended_witness :
    jsFindIndexAux (fun t => t.id == "a") [taskA, taskB] = some 0 ∧
    handleDragEnd [taskA, taskB] ⟨"a", some "a"⟩ = [taskA, taskB] ∧
    handleDragEnd [taskA, taskB] ⟨"a", none⟩ = [taskB, taskA] := by
  refine ⟨by decide, (c2_amended_noop_or_move_to_end [taskA, taskB] "a" 0 (by decide)).1, ?_⟩
  rcases (c2_amended_noop_or_move_to_end [taskA, taskB] "a" 0 (by decide)).2 with ⟨h, heq⟩
  exact heq

/-- C3 counterexample: a deadline serialized as a string is *not*
reconstituted into a date value on load — after the full persistence
round trip the collection contains a task whose present `deadline` is
still the serialized string. -/
theorem c3_counterexample :
    ((mountLoad (some (Except.ok (save [taskD])))).all
      (fun t =>
        match t.deadline with
        | some d => d.isDateObj
        | none => true)) = false := by decide

/-- C3 amended: the startup load of a saved collection returns it
unchanged up to timestamp representation — `createdAt` and `completedAt`
are reconstituted into date objects carrying the original epoch values,
while a present `deadline` is left as the serialized ISO string of its
original epoch value; all other fields round-trip exactly. -/
theorem c3_amended_roundtrip (T : List Todo) :
    mountLoad (some (Except.ok (save T))) =
      T.map (fun t =>
        { t with
          createdAt := DateRep.dateObj t.createdAt.ms
          completedAt := t.completedAt.map (fun d => DateRep.dateObj d.ms)
          deadline := t.deadline.map (fun d => DateRep.isoStr d.ms) }) := by
  show (T.map saveTodo).map loadTodoEffect = _
  rw [List.map_map]
  apply List.map_congr_left
  intro t _
  rcases t with ⟨i, tx, c, ca, co, dl⟩
  cases co <;> cases dl <;>
    simp [saveTodo, loadTodoEffect, newDate, Function.comp, DateRep.ms]

/-- A task whose id is the decimal print of millisecond 7, as `addTodo`
would create it at time 7. -/
def task7 : Todo :=
  { id := "7", text := "seven", completed := false, createdAt := DateRep.dateObj 7 }

/-- C4 counterexample: `addTodo` derives the id from `Date.now()`, so an
add in the same millisecond as an existing task's creation reuses that
task's id and breaks the one-task-per-id invariant. -/
theorem c4_counterexample :
    uniqueIds [task7] ∧ ¬ uniqueIds (addTodo [task7] "again" "" 7) := by
  constructor
  · decide
  · decide

/-- C4 amended: toggle, edit, delete and reorder always preserve the
one-task-per-id invariant, and `addTodo` preserves it exactly when the
current timestamp's decimal string differs from every id already in the
store (which an add in the same millisecond as an earlier add
violates). -/
theorem c4_amended_unique_ids (todos : List Todo) (hnd : uniqueIds todos)
    (text dl : String) (nowMs : Int) (id eid etext : String) (ev : DragEvent)
    (hfresh : toString nowMs ∉ todos.map Todo.id) :
    uniqueIds (addTodo todos text dl nowMs) ∧
    uniqueIds (toggleTodo todos id nowMs) ∧
    uniqueIds (submitEdit todos (some eid) etext) ∧
    uniqueIds (deleteTodo todos id) ∧
    uniqueIds (handleDragEnd todos ev) := by
  refine ⟨?_, ?_, ?_, ?_, ?_⟩
  · unfold addTodo
    by_cases hb : jsTrim text = ""
    · rw [if_pos hb]
      exact hnd
    · rw [if_neg hb]
      unfold uniqueIds
      rw [List.map_append, List.nodup_append]
      refine ⟨hnd, by simp, ?_⟩
      intro x hx hx'
      simp only [List.map_cons, List.map_nil, List.mem_singleton] at hx'
      subst hx'
      exact hfresh hx
  · have h : (toggleTodo todos id nowMs).map Todo.id = todos.map Todo.id := by
      unfold toggleTodo
      apply map_field_of_preserve
      intro x
      by_cases h : x.id == id <;> by_cases hc : x.completed = true <;> simp [h, hc]
    unfold uniqueIds
    rw [h]
    exact hnd
  · have h : (submitEdit todos (some eid) etext).map Todo.id = todos.map Todo.id := by
      show (todos.map _).map Todo.id = todos.map Todo.id
      apply map_field_of_preserve
      intro x
      by_cases h : x.id == eid <;> simp [h]
    unfold uniqueIds
    rw [h]
    exact hnd
  · exact (List.Sublist.map Todo.id (List.filter_sublist _)).nodup hnd
  · exact (((handleDragEnd_perm todos ev).map Todo.id).symm).nodup hnd

/-- Witness for the amended C4: adding at a fresh millisecond keeps ids
unique. -/
theorem c4_witness :
    uniqueIds [task7] ∧ toString (8 : Int) ∉ [task7].map Todo.id ∧
    uniqueIds (addTodo [task7] "eight" "" 8) :=
  ⟨by decide, by decide,
    (c4_amended_unique_ids [task7] (by decide) "eight" "" 8 "7" "7" "z" ⟨"7", none⟩
      (by decide)).1⟩

/-- C5 counterexample: toggling an initially *completed* task twice does
not restore its original `completedAt` — the second toggle stamps the
current time instead (`10` becomes `30`). -/
theorem c5_counterexample :
    toggleTodo (toggleTodo [taskH] "h" 20) "h" 30 ≠ [taskH] := by decide

/-- C5 amended: toggling twice restores the `completed` flag and every
other field; `completedAt` is restored to absent when the task was not
completed (so originally-active tasks return exactly to their original
state), but for an originally-completed task it is re-stamped with the
second toggle's time. -/
theorem c5_amended_double_toggle (todos : List Todo) (id : String) (t1 t2 : Int) :
    toggleTodo (toggleTodo todos id t1) id t2 =
      todos.map (fun todo =>
        if todo.id == id then
          (if todo.completed then { todo with completedAt := some (DateRep.dateObj t2) }
           else { todo with completedAt := none })
        else todo) := by
  unfold toggleTodo
  rw [List.map_map]
  apply List.map_congr_left
  intro t _
  rcases t with ⟨i, tx, c, ca, co, dl⟩
  by_cases h : i == id
  · cases c <;> simp [Function.comp, h]
  · simp [Function.comp, h]

/-- C6: the invariant "`completedAt` present iff `completed`" is
preserved by add, toggle, edit, delete and reorder, and toggle maintains
the pair transactionally — a false→true transition stamps `completedAt`
with the current time, a true→false transition removes it entirely. -/
theorem c6_completion_invariant (todos : List Todo) (hinv : completionInv todos)
    (text dl : String) (nowMs : Int) (id eid etext : String) (ev : DragEvent) :
    completionInv (addTodo todos text dl nowMs) ∧
    completionInv (toggleTodo todos id nowMs) ∧
    completionInv (submitEdit todos (some eid) etext) ∧
    completionInv (deleteTodo todos id) ∧
    completionInv (handleDragEnd todos ev) ∧
    (∀ t ∈ todos, t.id = id → t.completed = false →
      { t with completed := true, completedAt := some (DateRep.dateObj nowMs) } ∈
        toggleTodo todos id nowMs) ∧
    (∀ t ∈ todos, t.id = id → t.completed = true →
      { t with completed := false, completedAt := none } ∈
        toggleTodo todos id nowMs) := by
  refine ⟨?_, ?_, ?_, ?_, ?_, ?_, ?_⟩
  · intro t ht
    unfold addTodo at ht
    by_cases hb : jsTrim text = ""
    · rw [if_pos hb] at ht
      exact hinv t ht
    · rw [if_neg hb] at ht
      rcases List.mem_append.mp ht with h | h
      · exact hinv t h
      · simp only [List.mem_singleton] at h
        subst h
        rfl
  · intro t ht
    rcases List.mem_map.mp ht with ⟨s, hs, rfl⟩
    by_cases h : s.id == id
    · by_cases hc : s.completed = true <;> simp [h, hc]
    · simpa [h] using hinv s hs
  · intro t ht
    rcases List.mem_map.mp ht with ⟨s, hs, rfl⟩
    by_cases h : s.id == eid <;> simpa [h] using hinv s hs
  · intro t ht
    exact hinv t (List.mem_filter.mp ht).1
  · intro t ht
    exact hinv t ((handleDragEnd_perm todos ev).subset ht)
  · intro t ht hid hc
    refine List.mem_map.mpr ⟨t, ht, ?_⟩
    rw [show (t.id == id) = true by simp [hid], hc]
    rfl
  · intro t ht hid hc
    refine List.mem_map.mpr ⟨t, ht, ?_⟩
    rw [show (t.id == id) = true by simp [hid], hc]
    rfl

/-- Witness for C6: toggling the active task `a` in a collection that
satisfies the invariant keeps the invariant. -/
theorem c6_witness :
    completionInv [taskA, taskH] ∧ completionInv (toggleTodo [taskA, taskH] "a" 50) :=
  ⟨by decide,
    (c6_completion_invariant [taskA, taskH] (by decide) "x" "" 50 "a" "a" "t"
      ⟨"a", some "h"⟩).2.1⟩

/-- C7: `addTodo` with text that trims to empty leaves the collection
unchanged (and surfaces no error — the handler just returns); with
non-blank text it appends exactly one task, which starts not completed
and with no `completedAt`. -/
theorem c7_add_blank_noop_nonblank_appends (todos : List Todo) (text dl : String)
    (nowMs : Int) :
    (jsTrim text = "" → addTodo todos text dl nowMs = todos) ∧
    (jsTrim text ≠ "" →
      (addTodo todos text dl nowMs).length = todos.length + 1 ∧
      ∃ newTask, addTodo todos text dl nowMs = todos ++ [newTask] ∧
        newTask.completed = false ∧ newTask.completedAt = none) := by
  constructor
  · intro h
    unfold addTodo
    rw [if_pos h]
  · intro h
    unfold addTodo
    rw [if_neg h]
    exact ⟨by simp, _, rfl, rfl, rfl⟩

/-- Witness for C7: the whitespace-only add is a no-op and a real add
grows the collection by one. -/
theorem c7_witness :
    addTodo ([] : List Todo) "   " "" 0 = ([] : List Todo) ∧
    (addTodo ([] : List Todo) "hello" "" 0).length = ([] : List Todo).length + 1 :=
  ⟨(c7_add_blank_noop_nonblank_appends [] "   " "" 0).1 (by decide),
   ((c7_add_blank_noop_nonblank_appends [] "hello" "" 0).2 (by decide)).1⟩

/-- C8: filtering is pure on the collection value: `all` is the
identity, `active` keeps exactly the non-completed tasks and `completed`
exactly the completed ones, both preserving store order (sublists), and
together they partition the collection — their concatenation is a
permutation of it and every task lands in exactly one side. -/
theorem c8_filter_pure_partition (todos : List Todo) :
    filteredTodos todos FilterMode.all = todos ∧
    filteredTodos todos FilterMode.active = todos.filter (fun t => !t.completed) ∧
    filteredTodos todos FilterMode.completed = todos.filter (fun t => t.completed) ∧
    (filteredTodos todos FilterMode.active).Sublist todos ∧
    (filteredTodos todos FilterMode.completed).Sublist todos ∧
    (filteredTodos todos FilterMode.active ++
      filteredTodos todos FilterMode.completed).Perm todos ∧
    ∀ t ∈ todos,
      (t ∈ filteredTodos todos FilterMode.active ∧
        t ∉ filteredTodos todos FilterMode.completed) ∨
      (t ∉ filteredTodos todos FilterMode.active ∧
        t ∈ filteredTodos todos FilterMode.completed) := by
  have hall : filteredTodos todos FilterMode.all = todos :=
    List.filter_eq_self.mpr fun a _ => rfl
  have hact : filteredTodos todos FilterMode.active = todos.filter (fun t => !t.completed) :=
    List.filter_congr fun a _ => rfl
  have hcom : filteredTodos todos FilterMode.completed = todos.filter (fun t => t.completed) :=
    List.filter_congr fun a _ => rfl
  refine ⟨hall, hact, hcom, ?_, ?_, ?_, ?_⟩
  · exact List.filter_sublist todos
  · exact List.filter_sublist todos
  · rw [hact, hcom,
      show todos.filter (fun t => t.completed) = todos.filter (fun t => !(!t.completed)) from
        List.filter_congr fun a _ => by simp]
    exact List.filter_append_perm _ todos
  · intro t ht
    by_cases hc : t.completed = true
    · right
      constructor
      · rw [hact]
        simp [hc]
      · rw [hcom]
        simp [ht, hc]
    · left
      constructor
      · rw [hact]
        simp only [Bool.not_eq_true] at hc
        simp [ht, hc]
      · rw [hcom]
        simp [hc]

/-- Witness for C8 at a concrete mixed collection. -/
theorem c8_witness :
    filteredTodos [taskA, taskH] FilterMode.all = [taskA, taskH] :=
  (c8_filter_pure_partition [taskA, taskH]).1

/-- C9: a malformed persisted value (the deserializer throws) is caught
both in the `useState` initializer and in the on-mount effect; the
collection comes up empty and no error escapes (the model's return type
has no error channel — the catch block swallows it). -/
theorem c9_malformed_load_yields_empty (e : String) :
    loadInit (some (Except.error e)) = [] ∧
    mountLoad (some (Except.error e)) = [] ∧
    mountLoad none = [] :=
  ⟨rfl, rfl, rfl⟩

/-- Witness for C9 at a concrete malformed payload. -/
theorem c9_witness : mountLoad (some (Except.error "unterminated string")) = [] :=
  (c9_malformed_load_yields_empty "unterminated string").2.1

/-- C10: committing an active edit session for an id present in the
store rewrites exactly that task's text to the in-progress text — with
no blank-text rejection, so the empty string goes through — and leaves
every other field, every other task, and the order unchanged; some task
with the edited id really does carry the new text afterwards. -/
theorem c10_edit_replaces_text_only (todos : List Todo) (eid etext : String)
    (hmem : eid ∈ todos.map Todo.id) :
    (submitEdit todos (some eid) etext).length = todos.length ∧
    List.Forall₂ (fun t t' =>
        t'.id = t.id ∧ t'.completed = t.completed ∧ t'.createdAt = t.createdAt ∧
        t'.completedAt = t.completedAt ∧ t'.deadline = t.deadline ∧
        t'.text = if t.id == eid then etext else t.text)
      todos (submitEdit todos (some eid) etext) ∧
    ∃ t' ∈ submitEdit todos (some eid) etext, t'.id = eid ∧ t'.text = etext := by
  refine ⟨List.length_map _ _, ?_, ?_⟩
  · rw [show submitEdit todos (some eid) etext = todos.map _ from rfl,
      List.forall₂_map_right_iff, List.forall₂_same]
    intro t _
    by_cases h : t.id == eid <;> simp [h]
  · rcases List.mem_map.mp hmem with ⟨t, ht, htid⟩
    refine ⟨if t.id == eid then { t with text := etext } else t,
      List.mem_map_of_mem _ ht, ?_⟩
    simp [htid]

/-- Witness for C10: committing an edit to the empty string on `a`. -/
theorem c10_witness :
    (submitEdit [taskA] (some "a") "").length = [taskA].length ∧
    ∃ t' ∈ submitEdit [taskA] (some "a") "", t'.id = "a" ∧ t'.text = "" :=
  ⟨(c10_edit_replaces_text_only [taskA] "a" "" (by decide)).1,
   (c10_edit_replaces_text_only [taskA] "a" "" (by decide)).2.2⟩
